import Mathlib

/-!
Verification of the sprite-atlas build pipeline of `src/util/spritesheet.rs`.

The Rust code is shallowly embedded: paths are modelled as a root flag plus a
list of components, images are modelled by their pixel dimensions (no pixel
data is needed by any property below), `u32` values become `Nat` (all the
arithmetic here is small and overflow-free), fallible operations return
`Option`/`Except`, and the side-effecting cache-or-build control flow of
`get_spritesheet_bundles` is modelled as a pure function that also returns the
list of build/extract calls it performs.
-/

namespace Spritesheet

/-! ### File-name helpers

Rust `Path::file_stem` / `Path::set_extension` split a file name at its last
dot (a name whose only dot is leading, like `".gitignore"`, has no extension).
`splitDotRev` scans the reversed character list for the first dot, i.e. the
last dot of the original name. -/

/-- Splits a reversed character list at the first `'.'`: returns
`some (extRev, stemRev)` (both still reversed) or `none` when no dot occurs. -/
def splitDotRev : List Char → Option (List Char × List Char)
  | [] => none
  | c :: cs =>
    if c = '.' then some ([], cs)
    else (splitDotRev cs).map fun p => (c :: p.1, p.2)

/-- Splits a file name into `(stem, extension)`, following Rust `Path`
semantics: split at the last dot; a dot-free name and a name whose stem part
would be empty (leading dot) have no extension. -/
def splitExtName (s : String) : String × Option String :=
  match splitDotRev s.data.reverse with
  | none => (s, none)
  | some (extRev, stemRev) =>
    if stemRev = [] then (s, none)
    else (String.mk stemRev.reverse, some (String.mk extRev.reverse))

/-- Rust `Path::file_stem` on a single file name. -/
def fileStemStr (s : String) : String := (splitExtName s).1

/-- Rust `Path::set_extension` on a single file name: keep the stem, attach
the new extension. -/
def setExtStr (s e : String) : String := fileStemStr s ++ "." ++ e

/-- The file name contains no dot. -/
def noDot (s : String) : Prop := '.' ∉ s.data

instance (s : String) : Decidable (noDot s) := by
  unfold noDot; infer_instance

/-! ### Paths

A `FsPath` is a root flag (`absolute`) plus the list of remaining components,
matching the component view Rust's `Path` methods (`join`, `file_name`,
`strip_prefix`, `is_relative`) operate on.  The embedding only ever joins a
path with a single file name, which is how `spritesheet.rs` uses `join`. -/

structure FsPath where
  absolute : Bool
  parts : List String
deriving DecidableEq, Repr

/-- Rust `Path::is_relative`. -/
def FsPath.isRelative (p : FsPath) : Bool := !p.absolute

/-- Rust `Path::join` with a single file-name component. -/
def FsPath.join (p : FsPath) (name : String) : FsPath :=
  ⟨p.absolute, p.parts ++ [name]⟩

/-- Rust `Path::file_name` (the code unwraps it; `""` stands for the
never-taken `None` case). -/
def FsPath.fileName (p : FsPath) : String := (p.parts.getLast?).getD ""

/-- Rust `Path::file_stem` (same unwrap convention as `fileName`). -/
def FsPath.fileStem (p : FsPath) : String := fileStemStr p.fileName

/-- Rust `PathBuf::set_extension`: rewrite the last component's extension. -/
def FsPath.setExtension (p : FsPath) (e : String) : FsPath :=
  match p.parts.getLast? with
  | none => p
  | some f => ⟨p.absolute, p.parts.dropLast ++ [setExtStr f e]⟩

/-- Rust `Path::with_file_name`: replace the last component. -/
def FsPath.withFileName (p : FsPath) (name : String) : FsPath :=
  ⟨p.absolute, p.parts.dropLast ++ [name]⟩

/-- Rust `Path::strip_prefix`, `none` when the prefix does not match
(the caller in `cache_name` unwraps this, i.e. panics on `none`). -/
def stripPrefixPath (pre p : FsPath) : Option FsPath :=
  if pre.absolute == p.absolute && pre.parts.isPrefixOf p.parts then
    some ⟨false, p.parts.drop pre.parts.length⟩
  else none

/-! ### Sheet bundles (`SheetBundle`, `SpriteSheet`, `SheetBundles`) -/

structure SheetBundle where
  png : FsPath
  plist : FsPath
deriving DecidableEq, Repr

structure SpriteSheet where
  name : String
  files : List FsPath
deriving DecidableEq, Repr

structure SheetBundles where
  sd : SheetBundle
  hd : SheetBundle
  uhd : SheetBundle
deriving DecidableEq, Repr

/-- `SheetBundles::new_file`: a png path plus the same path with a `plist`
extension. -/
def SheetBundles.new_file (base : FsPath) : SheetBundle :=
  { png := base, plist := base.setExtension "plist" }

/-- `SheetBundles::new`: derive the three tier bundles (`X`, `X-hd`, `X-uhd`)
from one base path. -/
def SheetBundles.new (base0 : FsPath) : SheetBundles :=
  let base := base0.setExtension "png"
  let base_name := base.fileStem
  let hd := base.withFileName (base_name ++ "-hd.png")
  let uhd := base.withFileName (base_name ++ "-uhd.png")
  { sd := SheetBundles.new_file base
    hd := SheetBundles.new_file hd
    uhd := SheetBundles.new_file uhd }

/-- `SheetBundles::cache_name`: the cache key is the reduced-tier png path,
taken as-is when relative, otherwise stripped of the working-directory prefix
(`none` models the `unwrap` panic when the prefix does not match). -/
def SheetBundles.cache_name (b : SheetBundles) (working_dir : FsPath) :
    Option FsPath :=
  if b.sd.png.isRelative then some b.sd.png
  else stripPrefixPath working_dir b.sd.png

/-! ### Sprites and the sizing heuristic

A sprite is modelled by its name and pixel dimensions; none of the verified
properties inspect pixel values, so decoding, Lanczos resampling and RGBA4444
dithering are modelled by their effect on the dimensions alone. -/

structure Sprite where
  name : String
  w : Nat
  h : Nat
deriving DecidableEq, Repr

/-- `downscale`: `imageops::resize(img, w / factor, h / factor, Lanczos3)`
followed by dithering, modelled on dimensions (`u32` division truncates, as
`Nat` division does; dithering does not change dimensions). -/
def downscale (factor : Nat) (s : Sprite) : Sprite :=
  ⟨s.name, s.w / factor, s.h / factor⟩

/-- Rust `Iterator::max`: `none` on an empty iterator. -/
def iterMax : List Nat → Option Nat
  | [] => none
  | x :: rest =>
    some (match iterMax rest with
          | none => x
          | some m => max x m)

/-- Fuel-based integer square root, executable by the kernel; shown below to
agree with `Nat.sqrt`, i.e. with `⌊√n⌋`. -/
def isqrtGo (n : Nat) : Nat → Nat
  | 0 => 0
  | k + 1 => if (k + 1) * (k + 1) ≤ n then k + 1 else isqrtGo n k

def isqrt (n : Nat) : Nat := isqrtGo n n

/-- The atlas-width computation of `initialize_spritesheet_bundle`
(lines 110–121), applied to the already-downscaled sprites of one tier.

The Rust code computes `mean_height` and `width_sum` in `f64` and truncates
`(width_sum * mean_height).sqrt()` with `as u32`.  The `f64` arithmetic is
modelled exactly over the rationals:
`⌊√(width_sum * height_sum / n)⌋ = isqrt (width_sum * height_sum / n)`
with `Nat` division, since `⌊√q⌋ = Nat.sqrt ⌊q⌋` for every rational `q ≥ 0`.
`largest` is the unwrapped maximum sprite width. -/
def maxAtlasWidth (sprites : List Sprite) (largest : Nat) : Nat :=
  let width_sum := (sprites.map Sprite.w).sum
  let height_sum := (sprites.map Sprite.h).sum
  let heuristic := isqrt (width_sum * height_sum / sprites.length)
  if heuristic < largest then largest + 2 else heuristic

/-- The sizing heuristic exactly as claim C1 and spec §4.3 word it, with
`round` (nearest integer, halves up — `f64::round` for non-negative input)
instead of the code's truncation:
`round (√q) = ⌊(⌊√(4q)⌋ + 1) / 2⌋` for every rational `q ≥ 0`. -/
def specMaxWidthRound (sprites : List Sprite) (largest : Nat) : Nat :=
  let width_sum := (sprites.map Sprite.w).sum
  let height_sum := (sprites.map Sprite.h).sum
  let heuristic := (isqrt (4 * (width_sum * height_sum) / sprites.length) + 1) / 2
  if heuristic < largest then largest + 2 else heuristic

/-- The sizing heuristic as the amended claim words it: target atlas width is
the square root of `width_sum * mean_height` truncated to an integer
(`⌊√(width_sum * height_sum / n)⌋`), clamped upward to
`largest_single_sprite_width + 2` when smaller than the widest sprite. -/
def specMaxWidthFloor (sprites : List Sprite) (largest : Nat) : Nat :=
  let n := sprites.length
  let width_sum := (sprites.map Sprite.w).sum
  let height_sum := (sprites.map Sprite.h).sum
  let target := isqrt (width_sum * height_sum / n)
  if target < largest then largest + 2 else target

/-! ### The atlas packer

The skyline packer itself lives in the external `texture_packer` crate (only
its caller is part of this repository), so it is modelled from the spec. -/

structure Rect where
  x : Nat
  y : Nat
  w : Nat
  h : Nat
deriving DecidableEq, Repr

/-- One packed frame, as exposed by `texture_packer::get_frames`: the
placement rectangle inside the atlas (`frame`), the source rectangle of the
sprite (`source`), and the rotation flag. -/
structure Frame where
  rotated : Bool
  source : Rect
  frame : Rect
deriving DecidableEq, Repr

inductive BuildError where
  /-- An `unwrap()` of `None` (the `.max().unwrap()` on an empty sprite
  list). -/
  | unwrapPanic
  /-- `texture_packer::pack_ref` failed for the named sprite. -/
  | packError (sprite : String)
  /-- The explicit invalid-input error proposed by the spec for empty sheets;
  the code never produces it. -/
  | invalidInput
deriving DecidableEq, Repr

structure PackSt where
  cx : Nat
  cy : Nat
  rowH : Nat
deriving DecidableEq, Repr

/-- Modelled from the spec (§4.3): the skyline packer of the external
`texture_packer` crate, which is not part of this repository's sources.  A
deterministic shelf layout standing in for the skyline heuristic: sprites are
placed left-to-right at zero padding, a new shelf starts when the fixed
maximum width would be exceeded, height is unbounded, rotation never happens,
and a sprite wider than the maximum width fails with a pack error (spriting
trim of transparent borders is not modelled, so each `source` rectangle is
the full sprite). -/
def packAllGo (maxW : Nat) (st : PackSt) (acc : List (String × Frame)) :
    List Sprite → Except BuildError (List (String × Frame))
  | [] => .ok acc.reverse
  | s :: rest =>
    if maxW < s.w then .error (.packError s.name)
    else if st.cx + s.w ≤ maxW then
      packAllGo maxW ⟨st.cx + s.w, st.cy, max st.rowH s.h⟩
        ((s.name, ⟨false, ⟨0, 0, s.w, s.h⟩, ⟨st.cx, st.cy, s.w, s.h⟩⟩) :: acc)
        rest
    else
      packAllGo maxW ⟨s.w, st.cy + st.rowH, s.h⟩
        ((s.name, ⟨false, ⟨0, 0, s.w, s.h⟩, ⟨0, st.cy + st.rowH, s.w, s.h⟩⟩) :: acc)
        rest

/-- Pack every sprite of one tier, in input order, into an atlas of width at
most `maxW` (`pack_ref` for each sprite in the `for_each` loop). -/
def packAll (maxW : Nat) (sprites : List Sprite) :
    Except BuildError (List (String × Frame)) :=
  packAllGo maxW ⟨0, 0, 0⟩ [] sprites

/-! ### Manifest building -/

/-- Rust `str::strip_suffix`: remove the suffix if present. -/
def stripSuffixOpt (s suffix : String) : Option String :=
  if suffix.data.isSuffixOf s.data then
    some (String.mk (s.data.take (s.data.length - suffix.data.length)))
  else none

/-- The `sprite_name_in_sheet` closure (lines 141–149): namespace the
resolution-suffix-stripped sprite name as `mod.id/sprite.png`. -/
def sprite_name_in_sheet (modId name : String) : String :=
  modId ++ "/"
    ++ (((stripSuffixOpt name "-uhd").orElse
          fun _ => stripSuffixOpt name "-hd").getD name)
    ++ ".png"

/-- One value of the `frames` dictionary (lines 152–159): the geometry
fields are the legacy brace-delimited coordinate strings, and the vertical
sprite offset is the negated raw source offset. -/
structure FrameRecord where
  textureRotated : Bool
  spriteSourceSize : String
  spriteSize : String
  textureRect : String
  spriteOffset : String
deriving DecidableEq, Repr

def mkFrameRecord (f : Frame) : FrameRecord :=
  { textureRotated := f.rotated
    spriteSourceSize :=
      "\x7b" ++ toString f.source.w ++ ", " ++ toString f.source.h ++ "\x7d"
    spriteSize :=
      "\x7b" ++ toString f.frame.w ++ ", " ++ toString f.frame.h ++ "\x7d"
    textureRect :=
      "\x7b\x7b" ++ toString f.frame.x ++ ", " ++ toString f.frame.y
        ++ "\x7d, \x7b" ++ toString f.frame.w ++ ", " ++ toString f.frame.h
        ++ "\x7d\x7d"
    spriteOffset :=
      "\x7b" ++ toString f.source.x ++ ", "
        ++ toString (-(f.source.y : Int)) ++ "\x7d" }

/-- What claim C9 asserts of one frame record: `textureRotated` is false and
the four geometry fields are the legacy brace-delimited coordinate strings of
a single unrotated packer frame, with the vertical `spriteOffset` component
the negation of that frame's raw source offset. -/
def frameFieldsWellFormed (r : FrameRecord) : Prop :=
  r.textureRotated = false ∧
  ∃ fr : Frame, fr.rotated = false ∧ r = mkFrameRecord fr ∧
    r.spriteSourceSize =
      "\x7b" ++ toString fr.source.w ++ ", " ++ toString fr.source.h ++ "\x7d" ∧
    r.spriteSize =
      "\x7b" ++ toString fr.frame.w ++ ", " ++ toString fr.frame.h ++ "\x7d" ∧
    r.textureRect =
      "\x7b\x7b" ++ toString fr.frame.x ++ ", " ++ toString fr.frame.y
        ++ "\x7d, \x7b" ++ toString fr.frame.w ++ ", " ++ toString fr.frame.h
        ++ "\x7d\x7d" ∧
    r.spriteOffset =
      "\x7b" ++ toString fr.source.x ++ ", "
        ++ toString (-(fr.source.y : Int)) ++ "\x7d"

/-- Insertion into a key-sorted association list; on an equal key the new
value replaces the old one.  This is the `BTreeMap<String, _>` the frame
records are collected into (sorted keys, last insertion wins). -/
def insertSorted {ν : Type} (k : String) (v : ν) :
    List (String × ν) → List (String × ν)
  | [] => [(k, v)]
  | (k', v') :: rest =>
    if k < k' then (k, v) :: (k', v') :: rest
    else if k = k' then (k, v) :: rest
    else (k', v') :: insertSorted k v rest

/-- `collect::<BTreeMap<_, _>>()`. -/
def toBTreeMap {ν : Type} (l : List (String × ν)) : List (String × ν) :=
  l.foldl (fun acc kv => insertSorted kv.1 kv.2 acc) []

/-- The key part of `insertSorted`: what the sorted dictionary's key list
looks like depends only on the inserted keys, never on the values. -/
def insertKey (k : String) : List String → List String
  | [] => [k]
  | k' :: rest =>
    if k < k' then k :: k' :: rest
    else if k = k' then k :: rest
    else k' :: insertKey k rest

/-- The serialized plist document: the sorted `frames` dictionary plus the
fixed `metadata.format` marker (lines 165–170). -/
structure PlistDoc where
  frames : List (String × FrameRecord)
  metadataFormat : Nat
deriving DecidableEq, Repr

/-- Lines 152–170: map packer frames to `(key, record)` pairs, collect into
the sorted dictionary, and attach `metadata.format = 3`. -/
def buildPlist (modId : String) (frames : List (String × Frame)) : PlistDoc :=
  { frames := toBTreeMap (frames.map fun nf =>
      (sprite_name_in_sheet modId nf.1, mkFrameRecord nf.2))
    metadataFormat := 3 }

/-- `initialize_spritesheet_bundle` (lines 89–195), producing the plist
document for one tier: load and downscale the sprites, compute the maximum
atlas width (panicking on an empty sheet at `.max().unwrap()`), pack, and
build the manifest.  File I/O (the png/plist writes) has no bearing on any
claim and is not modelled. -/
def init_spritesheet_bundle (sheet : List Sprite) (factor : Nat)
    (modId : String) : Except BuildError PlistDoc :=
  let sprites := sheet.map (downscale factor)
  match iterMax (sprites.map Sprite.w) with
  | none => .error .unwrapPanic
  | some largest =>
    match packAll (maxAtlasWidth sprites largest) sprites with
    | .error e => .error e
    | .ok frames => .ok (buildPlist modId frames)

/-! ### The cache gateway (`get_spritesheet_bundles`, lines 213–263)

The side effects of the gateway — invoking the tier builder and extracting
cached files — are modelled as an event trace returned next to the bundles. -/

/-- The result of `cache.fetch_spritesheet_bundles(sheet)` for the requested
sheet (the cache itself is an external collaborator). -/
structure CacheBundle where
  fetchResult : Option FsPath
deriving DecidableEq, Repr

inductive Event where
  /-- One `initialize_spritesheet_bundle(bundle, sheet, factor, ..)` call. -/
  | buildTier (bundle : SheetBundle) (factor : Nat)
  /-- One `extract_from_cache` call: cached entry `src` extracted to
  `dest`. -/
  | extract (src : FsPath) (dest : FsPath)
deriving DecidableEq, Repr

def Event.isBuild : Event → Bool
  | .buildTier _ _ => true
  | .extract _ _ => false

/-- `extract_from_cache` (lines 197–211): extract the cached entry named by
`path` into the working directory under `path`'s file name. -/
def extract_from_cache (path working_dir : FsPath) : Event :=
  .extract path (working_dir.join path.fileName)

/-- The fresh-build arm of `get_spritesheet_bundles` (lines 245–262): derive
the bundles from `working_dir/<name>.png` and build the three tiers in the
fixed order reduced (factor 4), half (2), full (1). -/
def freshBuild (sheet : SpriteSheet) (working_dir : FsPath) :
    SheetBundles × List Event :=
  let bundles := SheetBundles.new (working_dir.join (sheet.name ++ ".png"))
  (bundles,
    [ Event.buildTier bundles.sd 4
    , Event.buildTier bundles.hd 2
    , Event.buildTier bundles.uhd 1 ])

/-- `get_spritesheet_bundles`: on a cache hit (cache present and the fetch
returns a path) extract all six artifact files; otherwise build the three
tiers from scratch. -/
def get_spritesheet_bundles (sheet : SpriteSheet) (working_dir : FsPath)
    (cache : Option CacheBundle) : SheetBundles × List Event :=
  match cache with
  | some cache_bundle =>
    match cache_bundle.fetchResult with
    | some p =>
      let bundles := SheetBundles.new p
      (bundles,
        [ extract_from_cache bundles.sd.png working_dir
        , extract_from_cache bundles.sd.plist working_dir
        , extract_from_cache bundles.hd.png working_dir
        , extract_from_cache bundles.hd.plist working_dir
        , extract_from_cache bundles.uhd.png working_dir
        , extract_from_cache bundles.uhd.plist working_dir ])
    | none => freshBuild sheet working_dir
  | none => freshBuild sheet working_dir

-- Decidable equality on build results, to evaluate the model on concrete
-- inputs.
deriving instance DecidableEq for Except


/-! ### File-name lemmas -/

theorem splitDotRev_append (l r : List Char) (h : '.' ∉ l) :
    splitDotRev (l ++ '.' :: r) = some (l, r) := by
  induction l with
  | nil => simp [splitDotRev]
  | cons c cs ih =>
    have hc : c ≠ '.' := fun hcc => h (hcc ▸ List.mem_cons_self c cs)
    have hcs : '.' ∉ cs := fun hm => h (List.mem_cons_of_mem c hm)
    simp [splitDotRev, hc, ih hcs]

theorem splitExtName_append (s e : String) (hs : s.data ≠ []) (he : noDot e) :
    splitExtName (s ++ "." ++ e) = (s, some e) := by
  have hdot : (".").data = ['.'] := by decide
  have hdata : (s ++ "." ++ e).data = s.data ++ '.' :: e.data := by
    rw [String.data_append, String.data_append, hdot, List.append_assoc,
      List.singleton_append]
  have hrev : (s.data ++ '.' :: e.data).reverse
      = e.data.reverse ++ '.' :: s.data.reverse := by
    rw [List.reverse_append, List.reverse_cons, List.append_assoc,
      List.singleton_append]
  have hmem : '.' ∉ e.data.reverse := by
    rw [List.mem_reverse]; exact he
  unfold splitExtName
  rw [hdata, hrev, splitDotRev_append _ _ hmem]
  have hne : s.data.reverse ≠ [] := by
    simpa [List.reverse_eq_nil_iff] using hs
  simp [hne]

theorem fileStemStr_append (s e : String) (hs : s.data ≠ []) (he : noDot e) :
    fileStemStr (s ++ "." ++ e) = s := by
  unfold fileStemStr
  rw [splitExtName_append s e hs he]

theorem setExtStr_append (s e e' : String) (hs : s.data ≠ []) (he : noDot e) :
    setExtStr (s ++ "." ++ e) e' = s ++ "." ++ e' := by
  unfold setExtStr
  rw [fileStemStr_append s e hs he]

theorem isqrtGo_eq_sqrt (n k : Nat) (hk : Nat.sqrt n ≤ k) :
    isqrtGo n k = Nat.sqrt n := by
  induction k with
  | zero => simpa [isqrtGo] using (Nat.le_antisymm hk (Nat.zero_le _)).symm
  | succ k ih =>
    by_cases h : (k + 1) * (k + 1) ≤ n
    · have h1 : k + 1 ≤ Nat.sqrt n := Nat.le_sqrt.mpr h
      have : isqrtGo n (k + 1) = k + 1 := by simp [isqrtGo, h]
      omega
    · have h2 : Nat.sqrt n ≤ k := by
        by_contra hcon
        have : k + 1 ≤ Nat.sqrt n := by omega
        exact h (le_trans (Nat.mul_le_mul this this) (Nat.sqrt_le n))
      simp [isqrtGo, h, ih h2]

theorem isqrt_eq_sqrt (n : Nat) : isqrt n = Nat.sqrt n :=
  isqrtGo_eq_sqrt n n (Nat.sqrt_le_self n)

/-! ### Basic lemmas about the embedded operations -/

theorem iterMax_eq_none (l : List Nat) : iterMax l = none ↔ l = [] := by
  cases l <;> simp [iterMax]

theorem iterMax_le (l : List Nat) (m : Nat) (hm : iterMax l = some m) :
    ∀ x ∈ l, x ≤ m := by
  induction l generalizing m with
  | nil => simp [iterMax] at hm
  | cons y rest ih =>
    intro x hx
    rcases List.mem_cons.mp hx with hx | hx
    · subst hx
      cases hrest : iterMax rest with
      | none => simp [iterMax, hrest] at hm; omega
      | some m' => simp [iterMax, hrest] at hm; omega
    · cases hrest : iterMax rest with
      | none =>
        rw [iterMax_eq_none] at hrest
        subst hrest
        simp at hx
      | some m' =>
        have := ih m' hrest x hx
        simp [iterMax, hrest] at hm
        omega

theorem largest_le_maxAtlasWidth (sprites : List Sprite) (largest : Nat) :
    largest ≤ maxAtlasWidth sprites largest := by
  unfold maxAtlasWidth
  dsimp only
  split <;> omega

theorem packAllGo_ok (maxW : Nat) (l : List Sprite)
    (h : ∀ s ∈ l, s.w ≤ maxW) :
    ∀ (st : PackSt) (acc : List (String × Frame)),
      ∃ r, packAllGo maxW st acc l = .ok r := by
  induction l with
  | nil => exact fun st acc => ⟨acc.reverse, rfl⟩
  | cons s rest ih =>
    intro st acc
    have hs : ¬ maxW < s.w := not_lt.mpr (h s (List.mem_cons_self s rest))
    have hrest : ∀ x ∈ rest, x.w ≤ maxW :=
      fun x hx => h x (List.mem_cons_of_mem s hx)
    by_cases hfit : st.cx + s.w ≤ maxW
    · obtain ⟨r, hr⟩ := ih hrest ⟨st.cx + s.w, st.cy, max st.rowH s.h⟩
        ((s.name, ⟨false, ⟨0, 0, s.w, s.h⟩, ⟨st.cx, st.cy, s.w, s.h⟩⟩) :: acc)
      exact ⟨r, by simp [packAllGo, hs, hfit, hr]⟩
    · obtain ⟨r, hr⟩ := ih hrest ⟨s.w, st.cy + st.rowH, s.h⟩
        ((s.name, ⟨false, ⟨0, 0, s.w, s.h⟩, ⟨0, st.cy + st.rowH, s.w, s.h⟩⟩) :: acc)
      exact ⟨r, by simp [packAllGo, hs, hfit, hr]⟩

theorem packAllGo_error (maxW : Nat) (l : List Sprite)
    (h : ∃ s ∈ l, maxW < s.w) :
    ∀ (st : PackSt) (acc : List (String × Frame)),
      ∃ s ∈ l, maxW < s.w ∧
        packAllGo maxW st acc l = .error (.packError s.name) := by
  induction l with
  | nil => simp at h
  | cons s rest ih =>
    intro st acc
    by_cases hs : maxW < s.w
    · exact ⟨s, List.mem_cons_self s rest, hs, by simp [packAllGo, hs]⟩
    · have hrest : ∃ x ∈ rest, maxW < x.w := by
        rcases h with ⟨x, hx, hxw⟩
        rcases List.mem_cons.mp hx with hx | hx
        · exact absurd (hx ▸ hxw) hs
        · exact ⟨x, hx, hxw⟩
      by_cases hfit : st.cx + s.w ≤ maxW
      · obtain ⟨x, hx, hxw, hres⟩ := ih hrest
          ⟨st.cx + s.w, st.cy, max st.rowH s.h⟩
          ((s.name, ⟨false, ⟨0, 0, s.w, s.h⟩, ⟨st.cx, st.cy, s.w, s.h⟩⟩) :: acc)
        exact ⟨x, List.mem_cons_of_mem s hx, hxw,
          by simp [packAllGo, hs, hfit, hres]⟩
      · obtain ⟨x, hx, hxw, hres⟩ := ih hrest
          ⟨s.w, st.cy + st.rowH, s.h⟩
          ((s.name, ⟨false, ⟨0, 0, s.w, s.h⟩, ⟨0, st.cy + st.rowH, s.w, s.h⟩⟩) :: acc)
        exact ⟨x, List.mem_cons_of_mem s hx, hxw,
          by simp [packAllGo, hs, hfit, hres]⟩

theorem packAllGo_map_fst (maxW : Nat) (l : List Sprite) :
    ∀ (st : PackSt) (acc r : List (String × Frame)),
      packAllGo maxW st acc l = .ok r →
      r.map Prod.fst = (acc.reverse.map Prod.fst) ++ l.map Sprite.name := by
  induction l with
  | nil =>
    intro st acc r hr
    simp [packAllGo] at hr
    simp [← hr]
  | cons s rest ih =>
    intro st acc r hr
    by_cases hs : maxW < s.w
    · simp [packAllGo, hs] at hr
    · by_cases hfit : st.cx + s.w ≤ maxW
      · simp only [packAllGo, if_neg hs, if_pos hfit] at hr
        have := ih _ _ _ hr
        simpa using this
      · simp only [packAllGo, if_neg hs, if_neg hfit] at hr
        have := ih _ _ _ hr
        simpa using this

theorem packAllGo_rotated (maxW : Nat) (l : List Sprite) :
    ∀ (st : PackSt) (acc r : List (String × Frame)),
      (∀ nf ∈ acc, nf.2.rotated = false) →
      packAllGo maxW st acc l = .ok r →
      ∀ nf ∈ r, nf.2.rotated = false := by
  induction l with
  | nil =>
    intro st acc r hacc hr
    simp [packAllGo] at hr
    intro nf hnf
    exact hacc nf (by simpa [← hr, List.mem_reverse] using hnf)
  | cons s rest ih =>
    intro st acc r hacc hr
    by_cases hs : maxW < s.w
    · simp [packAllGo, hs] at hr
    · by_cases hfit : st.cx + s.w ≤ maxW
      · simp only [packAllGo, if_neg hs, if_pos hfit] at hr
        refine ih _ _ _ ?_ hr
        intro nf hnf
        rcases List.mem_cons.mp hnf with hnf | hnf
        · subst hnf; rfl
        · exact hacc nf hnf
      · simp only [packAllGo, if_neg hs, if_neg hfit] at hr
        refine ih _ _ _ ?_ hr
        intro nf hnf
        rcases List.mem_cons.mp hnf with hnf | hnf
        · subst hnf; rfl
        · exact hacc nf hnf

/-! ### Lemmas about the sorted frame dictionary -/

theorem mem_insertSorted {ν : Type} (k : String) (v : ν)
    (m : List (String × ν)) (x : String × ν)
    (hx : x ∈ insertSorted k v m) : x = (k, v) ∨ x ∈ m := by
  induction m with
  | nil => simpa [insertSorted] using hx
  | cons kv rest ih =>
    by_cases h1 : k < kv.1
    · simp only [insertSorted, if_pos h1] at hx
      rcases List.mem_cons.mp hx with hx | hx
      · exact Or.inl hx
      · exact Or.inr hx
    · by_cases h2 : k = kv.1
      · simp only [insertSorted, if_neg h1, if_pos h2] at hx
        rcases List.mem_cons.mp hx with hx | hx
        · exact Or.inl hx
        · exact Or.inr (List.mem_cons_of_mem kv hx)
      · simp only [insertSorted, if_neg h1, if_neg h2] at hx
        rcases List.mem_cons.mp hx with hx | hx
        · exact Or.inr (hx ▸ List.mem_cons_self kv rest)
        · rcases ih hx with hx | hx
          · exact Or.inl hx
          · exact Or.inr (List.mem_cons_of_mem kv hx)

theorem sorted_insertSorted {ν : Type} (k : String) (v : ν)
    (m : List (String × ν))
    (hm : List.Sorted (fun a b : String × ν => a.1 < b.1) m) :
    List.Sorted (fun a b : String × ν => a.1 < b.1) (insertSorted k v m) := by
  induction m with
  | nil => simp [insertSorted]
  | cons kv rest ih =>
    rw [List.sorted_cons] at hm
    obtain ⟨hhead, hrest⟩ := hm
    by_cases h1 : k < kv.1
    · simp only [insertSorted, if_pos h1]
      rw [List.sorted_cons]
      refine ⟨?_, by rw [List.sorted_cons]; exact ⟨hhead, hrest⟩⟩
      intro y hy
      rcases List.mem_cons.mp hy with hy | hy
      · exact hy ▸ h1
      · exact lt_trans h1 (hhead y hy)
    · by_cases h2 : k = kv.1
      · simp only [insertSorted, if_neg h1, if_pos h2]
        rw [List.sorted_cons]
        exact ⟨fun y hy => h2 ▸ hhead y hy, hrest⟩
      · simp only [insertSorted, if_neg h1, if_neg h2]
        rw [List.sorted_cons]
        refine ⟨?_, ih hrest⟩
        intro y hy
        rcases mem_insertSorted k v rest y hy with hy | hy
        · have : kv.1 < k := lt_of_le_of_ne (le_of_not_lt h1) (Ne.symm h2)
          exact hy ▸ this
        · exact hhead y hy

theorem insertSorted_perm {ν : Type} (k : String) (v : ν)
    (m : List (String × ν)) (hk : k ∉ m.map Prod.fst) :
    (insertSorted k v m).Perm ((k, v) :: m) := by
  induction m with
  | nil => simp [insertSorted]
  | cons kv rest ih =>
    have hk1 : k ≠ kv.1 := by
      intro hcon
      exact hk (by simp [hcon])
    have hkrest : k ∉ rest.map Prod.fst := by
      intro hcon
      exact hk (by simp [hcon])
    by_cases h1 : k < kv.1
    · simp [insertSorted, h1]
    · simp only [insertSorted, if_neg h1, if_neg hk1]
      have h2 : (kv :: insertSorted k v rest).Perm (kv :: (k, v) :: rest) :=
        List.Perm.cons kv (ih hkrest)
      exact h2.trans (List.Perm.swap (k, v) kv rest)

theorem toBTreeMapGo_sorted {ν : Type} (l : List (String × ν)) :
    ∀ acc, List.Sorted (fun a b : String × ν => a.1 < b.1) acc →
      List.Sorted (fun a b : String × ν => a.1 < b.1)
        (l.foldl (fun acc kv => insertSorted kv.1 kv.2 acc) acc) := by
  induction l with
  | nil => intro acc hacc; exact hacc
  | cons kv rest ih =>
    intro acc hacc
    exact ih _ (sorted_insertSorted kv.1 kv.2 acc hacc)

theorem toBTreeMap_sorted {ν : Type} (l : List (String × ν)) :
    List.Sorted (fun a b : String × ν => a.1 < b.1) (toBTreeMap l) :=
  toBTreeMapGo_sorted l [] (by simp)

theorem mem_toBTreeMapGo {ν : Type} (l : List (String × ν)) :
    ∀ (acc : List (String × ν)) (x : String × ν),
      x ∈ l.foldl (fun acc kv => insertSorted kv.1 kv.2 acc) acc →
      x ∈ acc ∨ x ∈ l := by
  induction l with
  | nil => intro acc x hx; exact Or.inl hx
  | cons kv rest ih =>
    intro acc x hx
    rcases ih _ x hx with hx | hx
    · rcases mem_insertSorted kv.1 kv.2 acc x hx with hx | hx
      · exact Or.inr (by simp [hx])
      · exact Or.inl hx
    · exact Or.inr (List.mem_cons_of_mem kv hx)

theorem mem_toBTreeMap {ν : Type} (l : List (String × ν)) (x : String × ν)
    (hx : x ∈ toBTreeMap l) : x ∈ l := by
  rcases mem_toBTreeMapGo l [] x hx with h | h
  · simp at h
  · exact h

theorem toBTreeMapGo_perm {ν : Type} (l : List (String × ν)) :
    ∀ acc, ((acc ++ l).map Prod.fst).Nodup →
      (l.foldl (fun acc kv => insertSorted kv.1 kv.2 acc) acc).Perm (acc ++ l) := by
  induction l with
  | nil => intro acc _; simp
  | cons kv rest ih =>
    intro acc hnd
    have hmid : (acc ++ kv :: rest).Perm (kv :: (acc ++ rest)) := List.perm_middle
    have hk : kv.1 ∉ acc.map Prod.fst := by
      have hnd' : ((kv :: (acc ++ rest)).map Prod.fst).Nodup :=
        ((hmid.map Prod.fst).nodup_iff).mp hnd
      rw [List.map_cons, List.nodup_cons] at hnd'
      intro hcon
      exact hnd'.1 (by
        simp only [List.map_append, List.mem_append]
        exact Or.inl hcon)
    have hins : (insertSorted kv.1 kv.2 acc).Perm (kv :: acc) := by
      simpa using insertSorted_perm kv.1 kv.2 acc hk
    have happ : (insertSorted kv.1 kv.2 acc ++ rest).Perm (kv :: (acc ++ rest)) := by
      simpa using List.Perm.append_right rest hins
    have hnodup : ((insertSorted kv.1 kv.2 acc ++ rest).map Prod.fst).Nodup := by
      refine ((List.Perm.map Prod.fst (happ.trans hmid.symm)).nodup_iff).mpr hnd
    have hrec := ih (insertSorted kv.1 kv.2 acc) hnodup
    rw [List.foldl_cons]
    exact hrec.trans (happ.trans hmid.symm)

theorem toBTreeMap_perm {ν : Type} (l : List (String × ν))
    (hnd : (l.map Prod.fst).Nodup) : (toBTreeMap l).Perm l := by
  have := toBTreeMapGo_perm l [] (by simpa using hnd)
  simpa [toBTreeMap] using this

theorem map_fst_insertSorted {ν : Type} (k : String) (v : ν)
    (m : List (String × ν)) :
    (insertSorted k v m).map Prod.fst = insertKey k (m.map Prod.fst) := by
  induction m with
  | nil => simp [insertSorted, insertKey]
  | cons kv rest ih =>
    by_cases h1 : k < kv.1
    · simp [insertSorted, insertKey, h1]
    · by_cases h2 : k = kv.1
      · simp [insertSorted, insertKey, h1, h2]
      · simp [insertSorted, insertKey, h1, h2, ih]

theorem map_fst_toBTreeMapGo {ν : Type} (l : List (String × ν)) :
    ∀ acc, (l.foldl (fun acc kv => insertSorted kv.1 kv.2 acc) acc).map Prod.fst
      = (l.map Prod.fst).foldl (fun ks k => insertKey k ks) (acc.map Prod.fst) := by
  induction l with
  | nil => intro acc; rfl
  | cons kv rest ih =>
    intro acc
    rw [List.foldl_cons, List.map_cons, List.foldl_cons, ih,
      map_fst_insertSorted]

theorem map_fst_toBTreeMap {ν : Type} (l : List (String × ν)) :
    (toBTreeMap l).map Prod.fst
      = (l.map Prod.fst).foldl (fun ks k => insertKey k ks) [] := by
  simpa [toBTreeMap] using map_fst_toBTreeMapGo l []

/-! ### Lemmas about suffix stripping -/

theorem stripSuffixOpt_append (s t : String) :
    stripSuffixOpt (s ++ t) t = some s := by
  have hdata : (s ++ t).data = s.data ++ t.data := String.data_append s t
  have hsfx : t.data.isSuffixOf (s ++ t).data = true := by
    rw [hdata, List.isSuffixOf_iff_suffix]
    exact List.suffix_append s.data t.data
  unfold stripSuffixOpt
  rw [if_pos hsfx, hdata]
  have hlen : (s.data ++ t.data).length - t.data.length = s.data.length := by
    rw [List.length_append]; omega
  rw [hlen, List.take_left]

theorem not_uhd_suffix_of_hd (s : String) :
    stripSuffixOpt (s ++ "-hd") "-uhd" = none := by
  have hdata : (s ++ "-hd").data = s.data ++ ['-', 'h', 'd'] := by
    rw [String.data_append, show ("-hd" : String).data = ['-', 'h', 'd'] by decide]
  have huhd : ("-uhd" : String).data = ['-', 'u', 'h', 'd'] := by decide
  have hnot : ("-uhd" : String).data.isSuffixOf (s ++ "-hd").data = false := by
    rw [hdata, huhd]
    rw [Bool.eq_false_iff]
    intro hcon
    rw [List.isSuffixOf_iff_suffix] at hcon
    rw [← List.reverse_prefix] at hcon
    rw [List.reverse_append] at hcon
    have hrev : (['-', 'h', 'd'] : List Char).reverse = ['d', 'h', '-'] := by decide
    rw [hrev] at hcon
    have hrev2 : (['-', 'u', 'h', 'd'] : List Char).reverse = ['d', 'h', 'u', '-'] := by
      decide
    rw [hrev2] at hcon
    rw [show (['d', 'h', '-'] : List Char) ++ s.data.reverse
        = 'd' :: 'h' :: '-' :: s.data.reverse from rfl] at hcon
    rw [show (['d', 'h', 'u', '-'] : List Char)
        = 'd' :: 'h' :: 'u' :: ['-'] from rfl] at hcon
    rw [List.cons_prefix_cons] at hcon
    rw [List.cons_prefix_cons] at hcon
    have := hcon.2.2
    rw [List.cons_prefix_cons] at this
    exact absurd this.1 (by decide)
  unfold stripSuffixOpt
  rw [hnot]
  rfl

theorem sprite_name_hd (modId s : String) :
    sprite_name_in_sheet modId (s ++ "-hd") = modId ++ "/" ++ s ++ ".png" := by
  unfold sprite_name_in_sheet
  rw [not_uhd_suffix_of_hd, stripSuffixOpt_append]
  simp [Option.orElse, Option.getD, String.append_assoc]

theorem sprite_name_uhd (modId s : String) :
    sprite_name_in_sheet modId (s ++ "-uhd") = modId ++ "/" ++ s ++ ".png" := by
  unfold sprite_name_in_sheet
  rw [stripSuffixOpt_append]
  simp [Option.orElse, Option.getD, String.append_assoc]

/-! ### Lemmas about bundle file naming -/

theorem append_data_ne_nil (s t : String) (ht : t.data ≠ []) :
    (s ++ t).data ≠ [] := by
  rw [String.data_append]
  simp [ht]

theorem fileStemStr_png (s : String) (hne : s.data ≠ []) :
    fileStemStr (s ++ ".png") = s := by
  rw [show (".png" : String) = "." ++ "png" by decide, ← String.append_assoc]
  exact fileStemStr_append s "png" hne (by decide)

theorem setExtStr_png_png (s : String) (hne : s.data ≠ []) :
    setExtStr (s ++ ".png") "png" = s ++ ".png" := by
  rw [show (".png" : String) = "." ++ "png" by decide, ← String.append_assoc]
  exact setExtStr_append s "png" "png" hne (by decide)

theorem setExtStr_png_plist (s : String) (hne : s.data ≠ []) :
    setExtStr (s ++ ".png") "plist" = s ++ ".plist" := by
  rw [show (".png" : String) = "." ++ "png" by decide,
    show (".plist" : String) = "." ++ "plist" by decide,
    ← String.append_assoc, ← String.append_assoc]
  exact setExtStr_append s "png" "plist" hne (by decide)

theorem hd_png_split (s : String) : (s ++ "-hd") ++ ".png" = s ++ "-hd.png" := by
  rw [String.append_assoc, show ("-hd" : String) ++ ".png" = "-hd.png" by decide]

theorem hd_plist_split (s : String) :
    (s ++ "-hd") ++ ".plist" = s ++ "-hd.plist" := by
  rw [String.append_assoc,
    show ("-hd" : String) ++ ".plist" = "-hd.plist" by decide]

theorem uhd_png_split (s : String) :
    (s ++ "-uhd") ++ ".png" = s ++ "-uhd.png" := by
  rw [String.append_assoc, show ("-uhd" : String) ++ ".png" = "-uhd.png" by decide]

theorem uhd_plist_split (s : String) :
    (s ++ "-uhd") ++ ".plist" = s ++ "-uhd.plist" := by
  rw [String.append_assoc,
    show ("-uhd" : String) ++ ".plist" = "-uhd.plist" by decide]

theorem setExtStr_hdpng_plist (s : String) :
    setExtStr (s ++ "-hd.png") "plist" = s ++ "-hd.plist" := by
  have hne2 : (s ++ "-hd").data ≠ [] := append_data_ne_nil s "-hd" (by decide)
  rw [← hd_png_split, setExtStr_png_plist _ hne2, hd_plist_split]

theorem setExtStr_uhdpng_plist (s : String) :
    setExtStr (s ++ "-uhd.png") "plist" = s ++ "-uhd.plist" := by
  have hne2 : (s ++ "-uhd").data ≠ [] := append_data_ne_nil s "-uhd" (by decide)
  rw [← uhd_png_split, setExtStr_png_plist _ hne2, uhd_plist_split]

theorem setExtension_concat (abs : Bool) (ds : List String) (f e : String) :
    FsPath.setExtension ⟨abs, ds ++ [f]⟩ e = ⟨abs, ds ++ [setExtStr f e]⟩ := by
  unfold FsPath.setExtension
  rw [List.getLast?_concat]
  simp [List.dropLast_concat]

theorem withFileName_concat (abs : Bool) (ds : List String) (f name : String) :
    FsPath.withFileName ⟨abs, ds ++ [f]⟩ name = ⟨abs, ds ++ [name]⟩ := by
  unfold FsPath.withFileName
  rw [List.dropLast_concat]

theorem fileName_concat (abs : Bool) (ds : List String) (f : String) :
    FsPath.fileName ⟨abs, ds ++ [f]⟩ = f := by
  unfold FsPath.fileName
  rw [List.getLast?_concat]
  rfl

/-- How `SheetBundles::new` names the six artifact files, for a base path
whose file name is `<stem>.png` with a dot-free, non-empty stem: exactly the
on-disk layout of spec §6 (`X.png`/`X.plist`, `X-hd.png`/`X-hd.plist`,
`X-uhd.png`/`X-uhd.plist`). -/
theorem sheetBundles_new_concat (abs : Bool) (ds : List String) (s : String)
    (hne : s.data ≠ []) :
    SheetBundles.new ⟨abs, ds ++ [s ++ ".png"]⟩ =
      { sd := { png := ⟨abs, ds ++ [s ++ ".png"]⟩,
                plist := ⟨abs, ds ++ [s ++ ".plist"]⟩ },
        hd := { png := ⟨abs, ds ++ [s ++ "-hd.png"]⟩,
                plist := ⟨abs, ds ++ [s ++ "-hd.plist"]⟩ },
        uhd := { png := ⟨abs, ds ++ [s ++ "-uhd.png"]⟩,
                 plist := ⟨abs, ds ++ [s ++ "-uhd.plist"]⟩ } } := by
  have hbase : FsPath.setExtension ⟨abs, ds ++ [s ++ ".png"]⟩ "png"
      = ⟨abs, ds ++ [s ++ ".png"]⟩ := by
    rw [setExtension_concat, setExtStr_png_png s hne]
  have hstem : FsPath.fileStem ⟨abs, ds ++ [s ++ ".png"]⟩ = s := by
    unfold FsPath.fileStem
    rw [fileName_concat, fileStemStr_png s hne]
  simp only [SheetBundles.new, SheetBundles.new_file, hbase, hstem]
  rw [withFileName_concat, withFileName_concat]
  rw [setExtension_concat, setExtStr_png_plist s hne]
  rw [setExtension_concat, setExtStr_hdpng_plist s]
  rw [setExtension_concat, setExtStr_uhdpng_plist s]

/-! ### Characterizing the tier-build pipeline -/

theorem init_ok_frames (sheet : List Sprite) (factor : Nat) (modId : String)
    (doc : PlistDoc) (h : init_spritesheet_bundle sheet factor modId = .ok doc) :
    ∃ largest frames,
      iterMax ((sheet.map (downscale factor)).map Sprite.w) = some largest ∧
      packAll (maxAtlasWidth (sheet.map (downscale factor)) largest)
        (sheet.map (downscale factor)) = .ok frames ∧
      doc = buildPlist modId frames := by
  cases hmax : iterMax ((sheet.map (downscale factor)).map Sprite.w) with
  | none =>
    simp only [init_spritesheet_bundle, hmax] at h
    exact absurd h (by simp)
  | some largest =>
    simp only [init_spritesheet_bundle, hmax] at h
    cases hpack : packAll (maxAtlasWidth (sheet.map (downscale factor)) largest)
        (sheet.map (downscale factor)) with
    | error e => rw [hpack] at h; simp at h
    | ok frames =>
      rw [hpack] at h
      simp only [Except.ok.injEq] at h
      exact ⟨largest, frames, rfl, hpack, h.symm⟩

theorem pack_names (maxW : Nat) (sprites : List Sprite)
    (frames : List (String × Frame)) (h : packAll maxW sprites = .ok frames) :
    frames.map Prod.fst = sprites.map Sprite.name := by
  simpa using packAllGo_map_fst maxW sprites ⟨0, 0, 0⟩ [] frames h

theorem downscale_names (sheet : List Sprite) (factor : Nat) :
    (sheet.map (downscale factor)).map Sprite.name = sheet.map Sprite.name := by
  simp [List.map_map, downscale, Function.comp]

/-- The frame keys of an emitted manifest are a function of the sprite names
and the mod id only — in particular independent of the tier factor. -/
theorem init_ok_keys (sheet : List Sprite) (factor : Nat) (modId : String)
    (doc : PlistDoc) (h : init_spritesheet_bundle sheet factor modId = .ok doc) :
    doc.frames.map Prod.fst
      = ((sheet.map Sprite.name).map (sprite_name_in_sheet modId)).foldl
          (fun ks k => insertKey k ks) [] := by
  obtain ⟨largest, frames, hmax, hpack, hdoc⟩ :=
    init_ok_frames sheet factor modId doc h
  have hfst : frames.map Prod.fst = sheet.map Sprite.name := by
    rw [pack_names _ _ _ hpack, downscale_names]
  subst hdoc
  unfold buildPlist
  rw [map_fst_toBTreeMap]
  have hmaps : ((frames.map fun nf =>
        (sprite_name_in_sheet modId nf.1, mkFrameRecord nf.2)).map Prod.fst)
      = (frames.map Prod.fst).map (sprite_name_in_sheet modId) := by
    simp [List.map_map, Function.comp]
  rw [hmaps, hfst]

/-! ### The claims -/

set_option maxRecDepth 40000

/-- C1, counterexample: for the two sprites `(3 × 3)` and `(3 × 4)` the code's
heuristic width is `⌊√(6 · 3.5)⌋ = ⌊√21⌋ = 4`, while the claimed
`round(√21) = 5`; the widest sprite is `3`, so no clamp masks the
difference. -/
theorem claim1_counterexample :
    maxAtlasWidth [⟨"a", 3, 3⟩, ⟨"b", 3, 4⟩] 3 = 4 ∧
    specMaxWidthRound [⟨"a", 3, 3⟩, ⟨"b", 3, 4⟩] 3 = 5 ∧
    iterMax (([⟨"a", 3, 3⟩, ⟨"b", 3, 4⟩] : List Sprite).map Sprite.w) = some 3 ∧
    (4 : Nat) ≠ 5 := by
  refine ⟨by decide, by decide, by decide, by decide⟩

/-- C1, amended: the computed maximum atlas width equals
`⌊√(width_sum * mean_height)⌋` (truncated, not rounded), clamped upward to
`largest_single_sprite_width + 2` when smaller than the widest sprite; four
`10 × 10` sprites still yield max width `20` (the square root is exact there),
and a single `100`-wide sprite among narrow ones clamps to `102`. -/
theorem claim1_sizing_heuristic_truncates (sprites : List Sprite)
    (largest : Nat) :
    maxAtlasWidth sprites largest = specMaxWidthFloor sprites largest ∧
    maxAtlasWidth [⟨"a", 10, 10⟩, ⟨"b", 10, 10⟩, ⟨"c", 10, 10⟩, ⟨"d", 10, 10⟩]
      10 = 20 ∧
    maxAtlasWidth [⟨"big", 100, 1⟩, ⟨"s1", 1, 1⟩, ⟨"s2", 1, 1⟩] 100 = 102 :=
  ⟨rfl, by decide, by decide⟩

/-- C2: a sprite name ending in `-hd` or `-uhd` keys as
`<namespace>/<stripped>.png`, and the frame-key list of an emitted manifest
does not depend on the tier factor, so the reduced, half and full tiers of
the same sprite set carry identical keys. -/
theorem claim2_key_stability (modId s : String) :
    sprite_name_in_sheet modId (s ++ "-hd") = modId ++ "/" ++ s ++ ".png" ∧
    sprite_name_in_sheet modId (s ++ "-uhd") = modId ++ "/" ++ s ++ ".png" ∧
    ∀ (sheet : List Sprite) (f₁ f₂ : Nat) (d₁ d₂ : PlistDoc),
      init_spritesheet_bundle sheet f₁ modId = .ok d₁ →
      init_spritesheet_bundle sheet f₂ modId = .ok d₂ →
      d₁.frames.map Prod.fst = d₂.frames.map Prod.fst := by
  refine ⟨sprite_name_hd modId s, sprite_name_uhd modId s, ?_⟩
  intro sheet f₁ f₂ d₁ d₂ h₁ h₂
  rw [init_ok_keys sheet f₁ modId d₁ h₁, init_ok_keys sheet f₂ modId d₂ h₂]

theorem claim2_witness :
    sprite_name_in_sheet "mod.id" ("icon" ++ "-hd")
        = "mod.id" ++ "/" ++ "icon" ++ ".png" ∧
    sprite_name_in_sheet "mod.id" ("icon" ++ "-uhd")
        = "mod.id" ++ "/" ++ "icon" ++ ".png" ∧
    (PlistDoc.mk [("mod.id/icon.png", FrameRecord.mk false "\x7b1, 1\x7d"
        "\x7b1, 1\x7d" "\x7b\x7b0, 0\x7d, \x7b1, 1\x7d\x7d" "\x7b0, 0\x7d")]
        3).frames.map Prod.fst
      = (PlistDoc.mk [("mod.id/icon.png", FrameRecord.mk false "\x7b2, 2\x7d"
        "\x7b2, 2\x7d" "\x7b\x7b0, 0\x7d, \x7b2, 2\x7d\x7d" "\x7b0, 0\x7d")]
        3).frames.map Prod.fst :=
  ⟨(claim2_key_stability "mod.id" "icon").1,
    (claim2_key_stability "mod.id" "icon").2.1,
    (claim2_key_stability "mod.id" "icon").2.2 [⟨"icon-hd", 2, 2⟩] 2 1 _ _
      (by decide) (by decide)⟩

/-- C3: the emitted `frames` dictionary is sorted by key, and is invariant
under any reordering of the packer's frame iteration (given the
packer-contract invariant that post-strip keys are unique), so the same
sprite set always serializes to the same manifest document. -/
theorem claim3_sorted_deterministic (modId : String)
    (fl fl' : List (String × Frame)) (hperm : fl.Perm fl')
    (hnd : (fl.map fun nf => sprite_name_in_sheet modId nf.1).Nodup) :
    List.Sorted (fun a b : String × FrameRecord => a.1 < b.1)
      (buildPlist modId fl).frames ∧
    buildPlist modId fl = buildPlist modId fl' := by
  have hnd1 : ((fl.map fun nf =>
      (sprite_name_in_sheet modId nf.1, mkFrameRecord nf.2)).map
        Prod.fst).Nodup := by
    simpa [List.map_map, Function.comp] using hnd
  have hp : (fl.map fun nf =>
        (sprite_name_in_sheet modId nf.1, mkFrameRecord nf.2)).Perm
      (fl'.map fun nf =>
        (sprite_name_in_sheet modId nf.1, mkFrameRecord nf.2)) :=
    hperm.map _
  have hnd2 : ((fl'.map fun nf =>
      (sprite_name_in_sheet modId nf.1, mkFrameRecord nf.2)).map
        Prod.fst).Nodup := ((hp.map Prod.fst).nodup_iff).mp hnd1
  refine ⟨toBTreeMap_sorted _, ?_⟩
  have heq : toBTreeMap (fl.map fun nf =>
        (sprite_name_in_sheet modId nf.1, mkFrameRecord nf.2))
      = toBTreeMap (fl'.map fun nf =>
        (sprite_name_in_sheet modId nf.1, mkFrameRecord nf.2)) := by
    haveI : IsAntisymm (String × FrameRecord) (fun a b => a.1 < b.1) :=
      ⟨fun a b h1 h2 => absurd (lt_trans h1 h2) (lt_irrefl _)⟩
    refine List.eq_of_perm_of_sorted ?_ (toBTreeMap_sorted _)
      (toBTreeMap_sorted _)
    exact (toBTreeMap_perm _ hnd1).trans
      (hp.trans (toBTreeMap_perm _ hnd2).symm)
  unfold buildPlist
  rw [heq]

theorem claim3_witness :
    List.Sorted (fun a b : String × FrameRecord => a.1 < b.1)
      (buildPlist "m" [("b", ⟨false, ⟨0, 0, 2, 2⟩, ⟨0, 0, 2, 2⟩⟩),
        ("a", ⟨false, ⟨0, 0, 1, 1⟩, ⟨2, 0, 1, 1⟩⟩)]).frames ∧
    buildPlist "m" [("b", ⟨false, ⟨0, 0, 2, 2⟩, ⟨0, 0, 2, 2⟩⟩),
        ("a", ⟨false, ⟨0, 0, 1, 1⟩, ⟨2, 0, 1, 1⟩⟩)]
      = buildPlist "m" [("a", ⟨false, ⟨0, 0, 1, 1⟩, ⟨2, 0, 1, 1⟩⟩),
        ("b", ⟨false, ⟨0, 0, 2, 2⟩, ⟨0, 0, 2, 2⟩⟩)] :=
  claim3_sorted_deterministic "m" _ _ (by decide) (by decide)

/-- C4: on a cache hit the gateway performs no tier build and exactly the six
extraction calls, one per tier artifact, extracting into the working
directory under the fresh-build naming convention
(`X.png`, `X.plist`, `X-hd.png`, `X-hd.plist`, `X-uhd.png`, `X-uhd.plist`). -/
theorem claim4_cache_hit_extracts (sheet : SpriteSheet) (wd : FsPath)
    (cb : CacheBundle) (p : FsPath) (ds : List String) (s : String)
    (hfetch : cb.fetchResult = some p)
    (hp : p.parts = ds ++ [s ++ ".png"])
    (hne : s.data ≠ []) :
    (get_spritesheet_bundles sheet wd (some cb)).2 =
      [ Event.extract ⟨p.absolute, ds ++ [s ++ ".png"]⟩
          (wd.join (s ++ ".png"))
      , Event.extract ⟨p.absolute, ds ++ [s ++ ".plist"]⟩
          (wd.join (s ++ ".plist"))
      , Event.extract ⟨p.absolute, ds ++ [s ++ "-hd.png"]⟩
          (wd.join (s ++ "-hd.png"))
      , Event.extract ⟨p.absolute, ds ++ [s ++ "-hd.plist"]⟩
          (wd.join (s ++ "-hd.plist"))
      , Event.extract ⟨p.absolute, ds ++ [s ++ "-uhd.png"]⟩
          (wd.join (s ++ "-uhd.png"))
      , Event.extract ⟨p.absolute, ds ++ [s ++ "-uhd.plist"]⟩
          (wd.join (s ++ "-uhd.plist")) ] ∧
    ∀ e ∈ (get_spritesheet_bundles sheet wd (some cb)).2,
      e.isBuild = false := by
  obtain ⟨abs, parts⟩ := p
  simp only at hp
  subst hp
  have htrace : (get_spritesheet_bundles sheet wd (some cb)).2 =
      [ Event.extract ⟨abs, ds ++ [s ++ ".png"]⟩ (wd.join (s ++ ".png"))
      , Event.extract ⟨abs, ds ++ [s ++ ".plist"]⟩ (wd.join (s ++ ".plist"))
      , Event.extract ⟨abs, ds ++ [s ++ "-hd.png"]⟩
          (wd.join (s ++ "-hd.png"))
      , Event.extract ⟨abs, ds ++ [s ++ "-hd.plist"]⟩
          (wd.join (s ++ "-hd.plist"))
      , Event.extract ⟨abs, ds ++ [s ++ "-uhd.png"]⟩
          (wd.join (s ++ "-uhd.png"))
      , Event.extract ⟨abs, ds ++ [s ++ "-uhd.plist"]⟩
          (wd.join (s ++ "-uhd.plist")) ] := by
    simp only [get_spritesheet_bundles, hfetch]
    rw [sheetBundles_new_concat abs ds s hne]
    simp only [extract_from_cache, fileName_concat]
  refine ⟨htrace, ?_⟩
  rw [htrace]
  intro e he
  simp only [List.mem_cons, List.not_mem_nil, or_false] at he
  rcases he with rfl | rfl | rfl | rfl | rfl | rfl <;> rfl

theorem claim4_witness :
    (get_spritesheet_bundles ⟨"sheet", []⟩ ⟨true, ["wd"]⟩
        (some ⟨some ⟨false, ["sheet.png"]⟩⟩)).2 =
      [ Event.extract ⟨false, [] ++ ["sheet" ++ ".png"]⟩
          (FsPath.join ⟨true, ["wd"]⟩ ("sheet" ++ ".png"))
      , Event.extract ⟨false, [] ++ ["sheet" ++ ".plist"]⟩
          (FsPath.join ⟨true, ["wd"]⟩ ("sheet" ++ ".plist"))
      , Event.extract ⟨false, [] ++ ["sheet" ++ "-hd.png"]⟩
          (FsPath.join ⟨true, ["wd"]⟩ ("sheet" ++ "-hd.png"))
      , Event.extract ⟨false, [] ++ ["sheet" ++ "-hd.plist"]⟩
          (FsPath.join ⟨true, ["wd"]⟩ ("sheet" ++ "-hd.plist"))
      , Event.extract ⟨false, [] ++ ["sheet" ++ "-uhd.png"]⟩
          (FsPath.join ⟨true, ["wd"]⟩ ("sheet" ++ "-uhd.png"))
      , Event.extract ⟨false, [] ++ ["sheet" ++ "-uhd.plist"]⟩
          (FsPath.join ⟨true, ["wd"]⟩ ("sheet" ++ "-uhd.plist")) ] ∧
    ∀ e ∈ (get_spritesheet_bundles ⟨"sheet", []⟩ ⟨true, ["wd"]⟩
        (some ⟨some ⟨false, ["sheet.png"]⟩⟩)).2, e.isBuild = false :=
  claim4_cache_hit_extracts ⟨"sheet", []⟩ ⟨true, ["wd"]⟩
    ⟨some ⟨false, ["sheet.png"]⟩⟩ ⟨false, ["sheet.png"]⟩ [] "sheet"
    rfl (by decide) (by decide)

/-- C5: on a cache miss (no cache, or the fetch returns nothing) the gateway
builds the three tiers in the fixed order reduced (factor 4), half (factor
2), full (factor 1), and returns the bundle triple derived from
`working_dir/<sheet>.png`. -/
theorem claim5_cache_miss_builds (sheet : SpriteSheet) (wd : FsPath)
    (cache : Option CacheBundle)
    (h : ∀ cb, cache = some cb → cb.fetchResult = none) :
    (get_spritesheet_bundles sheet wd cache).1
        = SheetBundles.new (wd.join (sheet.name ++ ".png")) ∧
    (get_spritesheet_bundles sheet wd cache).2 =
      [ Event.buildTier (SheetBundles.new (wd.join (sheet.name ++ ".png"))).sd 4
      , Event.buildTier (SheetBundles.new (wd.join (sheet.name ++ ".png"))).hd 2
      , Event.buildTier
          (SheetBundles.new (wd.join (sheet.name ++ ".png"))).uhd 1 ] := by
  cases cache with
  | none => exact ⟨rfl, rfl⟩
  | some cb =>
    have hf := h cb rfl
    exact ⟨by simp only [get_spritesheet_bundles, hf, freshBuild],
      by simp only [get_spritesheet_bundles, hf, freshBuild]⟩

theorem claim5_witness :
    (get_spritesheet_bundles ⟨"sheet", []⟩ ⟨true, ["wd"]⟩ none).1
        = SheetBundles.new (FsPath.join ⟨true, ["wd"]⟩ ("sheet" ++ ".png")) ∧
    (get_spritesheet_bundles ⟨"sheet", []⟩ ⟨true, ["wd"]⟩ none).2 =
      [ Event.buildTier (SheetBundles.new
          (FsPath.join ⟨true, ["wd"]⟩ ("sheet" ++ ".png"))).sd 4
      , Event.buildTier (SheetBundles.new
          (FsPath.join ⟨true, ["wd"]⟩ ("sheet" ++ ".png"))).hd 2
      , Event.buildTier (SheetBundles.new
          (FsPath.join ⟨true, ["wd"]⟩ ("sheet" ++ ".png"))).uhd 1 ] :=
  claim5_cache_miss_builds ⟨"sheet", []⟩ ⟨true, ["wd"]⟩ none
    (fun _cb hcb => nomatch hcb)

/-- C6, counterexample: with zero source files the build fails by panicking
at `.max().unwrap()` (an unwrap of `None`), which is not the explicit
`InvalidInput` error the claim describes. -/
theorem claim6_counterexample :
    init_spritesheet_bundle [] 4 "mod.id" = .error .unwrapPanic ∧
    BuildError.unwrapPanic ≠ BuildError.invalidInput := ⟨rfl, by decide⟩

/-- C6, amended: building a sprite sheet with zero source files panics on the
unwrap of `None` when taking the maximum sprite width of the empty list —
before the mean-height division is ever reached — rather than producing a
typed `InvalidInput` error. -/
theorem claim6_empty_sheet_panics (factor : Nat) (modId : String) :
    init_spritesheet_bundle [] factor modId = .error .unwrapPanic := rfl

/-- C7: if any sprite is wider than the maximum atlas width, packing fails
with a pack error naming an offending sprite — the sprite is not clipped and
the atlas width is not expanded, since no placement is produced at all. -/
theorem claim7_pack_error (maxW : Nat) (sprites : List Sprite)
    (h : ∃ s ∈ sprites, maxW < s.w) :
    ∃ s ∈ sprites, maxW < s.w ∧
      packAll maxW sprites = .error (.packError s.name) :=
  packAllGo_error maxW sprites h ⟨0, 0, 0⟩ []

theorem claim7_witness :
    ∃ s ∈ ([⟨"wide", 5, 1⟩] : List Sprite), 1 < s.w ∧
      packAll 1 [⟨"wide", 5, 1⟩] = .error (.packError s.name) :=
  claim7_pack_error 1 [⟨"wide", 5, 1⟩] ⟨⟨"wide", 5, 1⟩, by decide, by decide⟩

/-- C8, counterexample: for the absolute reduced-tier path `/a/b.png` and the
working directory `/c` the cache key computation panics (`strip_prefix`'s
`unwrap` of an `Err`) instead of producing a working-directory-relative
path. -/
theorem claim8_counterexample :
    (SheetBundles.new ⟨true, ["a", "b.png"]⟩).sd.png.isRelative = false ∧
    (SheetBundles.new ⟨true, ["a", "b.png"]⟩).cache_name ⟨true, ["c"]⟩
      = none := by decide

/-- C8, amended: a relative reduced-tier path is used as the cache key
unchanged; an absolute one is stripped of the working-directory prefix when
the working directory (with matching rootedness) is a prefix of it, and the
lookup panics otherwise. -/
theorem claim8_cache_key (b : SheetBundles) (wd : FsPath) :
    (b.sd.png.isRelative = true → b.cache_name wd = some b.sd.png) ∧
    (b.sd.png.isRelative = false →
      (∀ rest, b.sd.png.parts = wd.parts ++ rest →
        wd.absolute = b.sd.png.absolute →
        b.cache_name wd = some ⟨false, rest⟩) ∧
      ((∀ rest, b.sd.png.parts = wd.parts ++ rest →
          wd.absolute ≠ b.sd.png.absolute) →
        b.cache_name wd = none)) := by
  refine ⟨fun hrel => by simp [SheetBundles.cache_name, hrel], fun hrel => ⟨?_, ?_⟩⟩
  · intro rest hparts habs
    have hpre : wd.parts.isPrefixOf b.sd.png.parts = true := by
      rw [List.isPrefixOf_iff_prefix, hparts]
      exact ⟨rest, rfl⟩
    have hdrop : b.sd.png.parts.drop wd.parts.length = rest := by
      rw [hparts, List.drop_left]
    simp [SheetBundles.cache_name, hrel, stripPrefixPath, hpre, habs, hdrop]
  · intro hno
    have hcond : (wd.absolute == b.sd.png.absolute
        && wd.parts.isPrefixOf b.sd.png.parts) = false := by
      by_contra hcon
      rw [Bool.not_eq_false, Bool.and_eq_true, beq_iff_eq,
        List.isPrefixOf_iff_prefix] at hcon
      obtain ⟨habs, t, ht⟩ := hcon
      exact hno t ht.symm habs
    simp [SheetBundles.cache_name, hrel, stripPrefixPath, hcond]

theorem claim8_witness :
    (SheetBundles.new ⟨true, ["w", "x.png"]⟩).cache_name ⟨true, ["w"]⟩
      = some ⟨false, ["x.png"]⟩ :=
  ((claim8_cache_key (SheetBundles.new ⟨true, ["w", "x.png"]⟩)
    ⟨true, ["w"]⟩).2 (by decide)).1 ["x.png"] (by decide) (by decide)

/-- C9: an emitted manifest carries `metadata.format = 3`, and every frame
record writes its geometry as the legacy brace-delimited strings of one
packer frame, with `textureRotated` false and the vertical sprite offset
equal to the negated raw source offset of that same frame. -/
theorem claim9_manifest_fields (sheet : List Sprite) (factor : Nat)
    (modId : String) (doc : PlistDoc)
    (h : init_spritesheet_bundle sheet factor modId = .ok doc) :
    doc.metadataFormat = 3 ∧
    ∀ kr ∈ doc.frames, frameFieldsWellFormed kr.2 := by
  obtain ⟨largest, frames, hmax, hpack, hdoc⟩ :=
    init_ok_frames sheet factor modId doc h
  subst hdoc
  refine ⟨rfl, ?_⟩
  intro kr hkr
  have hkr' : kr ∈ frames.map (fun nf =>
      (sprite_name_in_sheet modId nf.1, mkFrameRecord nf.2)) :=
    mem_toBTreeMap _ kr hkr
  obtain ⟨nf, hnf, hkreq⟩ := List.mem_map.mp hkr'
  obtain ⟨nm, fr⟩ := nf
  subst hkreq
  have hrot : fr.rotated = false :=
    packAllGo_rotated _ _ ⟨0, 0, 0⟩ [] frames (by simp) hpack (nm, fr) hnf
  exact ⟨hrot, fr, hrot, rfl, rfl, rfl, rfl, rfl⟩

theorem claim9_witness :
    (PlistDoc.mk [("m/a.png", FrameRecord.mk false "\x7b1, 1\x7d"
        "\x7b1, 1\x7d" "\x7b\x7b0, 0\x7d, \x7b1, 1\x7d\x7d" "\x7b0, 0\x7d")]
        3).metadataFormat = 3 ∧
    ∀ kr ∈ (PlistDoc.mk [("m/a.png", FrameRecord.mk false "\x7b1, 1\x7d"
        "\x7b1, 1\x7d" "\x7b\x7b0, 0\x7d, \x7b1, 1\x7d\x7d" "\x7b0, 0\x7d")]
        3).frames, frameFieldsWellFormed kr.2 :=
  claim9_manifest_fields [⟨"a", 1, 1⟩] 1 "m" _ (by decide)

/-- C10: for a non-empty sprite set the computed maximum atlas width is at
least the widest sprite's width (the upward clamp guarantees it), so packing
cannot hit the per-sprite width-overflow branch and the whole tier build
succeeds. -/
theorem claim10_no_overflow (sheet : List Sprite) (factor : Nat)
    (modId : String) (h : sheet ≠ []) :
    ∃ largest,
      iterMax ((sheet.map (downscale factor)).map Sprite.w) = some largest ∧
      largest ≤ maxAtlasWidth (sheet.map (downscale factor)) largest ∧
      ∃ doc, init_spritesheet_bundle sheet factor modId = .ok doc := by
  cases hmax : iterMax ((sheet.map (downscale factor)).map Sprite.w) with
  | none =>
    rw [iterMax_eq_none] at hmax
    simp only [List.map_eq_nil_iff] at hmax
    exact absurd hmax h
  | some largest =>
    refine ⟨largest, rfl, largest_le_maxAtlasWidth _ _, ?_⟩
    have hall : ∀ s ∈ sheet.map (downscale factor),
        s.w ≤ maxAtlasWidth (sheet.map (downscale factor)) largest := by
      intro s hs
      have hw : s.w ≤ largest :=
        iterMax_le _ _ hmax s.w (List.mem_map_of_mem Sprite.w hs)
      exact le_trans hw (largest_le_maxAtlasWidth _ _)
    obtain ⟨r, hr⟩ := packAllGo_ok
      (maxAtlasWidth (sheet.map (downscale factor)) largest)
      (sheet.map (downscale factor)) hall ⟨0, 0, 0⟩ []
    have hr' : packAll (maxAtlasWidth (sheet.map (downscale factor)) largest)
        (sheet.map (downscale factor)) = .ok r := hr
    refine ⟨buildPlist modId r, ?_⟩
    simp only [init_spritesheet_bundle, hmax, hr']

theorem claim10_witness :
    ∃ largest,
      iterMax ((([⟨"a", 10, 10⟩] : List Sprite).map (downscale 1)).map
        Sprite.w) = some largest ∧
      largest ≤ maxAtlasWidth (([⟨"a", 10, 10⟩] : List Sprite).map
        (downscale 1)) largest ∧
      ∃ doc, init_spritesheet_bundle [⟨"a", 10, 10⟩] 1 "m" = .ok doc :=
  claim10_no_overflow [⟨"a", 10, 10⟩] 1 "m" (by decide)

end Spritesheet
